import Mathlib

/-!
Verification of the NFT-aggregator dashboard data layer (`src/lib/api.ts`).

The TypeScript source is shallowly embedded: JavaScript strings are Lean
`String`s (logically a `List Char`), JavaScript's ASCII case conversion is
`Char.toLower` / `Char.toUpper`, nullable / optional fields are `Option`,
network calls (`fetch`) are oracles passed in as function arguments, and
`Math.random().toString(36).substring(7)` is an oracle string argument.
`Date.now()` is an `Int` argument.  All functions are total: every `throw`
site of the source is enclosed in a `try/catch` whose handler returns a
sentinel, which the embedding mirrors by returning the sentinel directly.
-/

/-! ## JavaScript string primitives -/

/-- Truthiness of a JS string-or-nullish value: `undefined`, `null` and the
empty string are falsy. -/
def truthyS : Option String → Bool
  | none => false
  | some s => !(s == "")

/-- Truthiness of a JS boolean-or-undefined value. -/
def truthyB : Option Bool → Bool
  | none => false
  | some b => b

/-- JS `a || b` on string-or-nullish values, returning the default when the
first operand is falsy. -/
def jsOr (a : Option String) (b : String) : String :=
  match a with
  | some s => if s == "" then b else s
  | none => b

/-- JS `s.toLowerCase()` (ASCII model). -/
def jsLower (s : String) : String :=
  ⟨s.data.map Char.toLower⟩

/-- JS `s.includes(pat)`. -/
def jsIncludes (s pat : String) : Bool :=
  decide (pat.data <:+: s.data)

/-- JS `s.endsWith(suffixStr)`. -/
def jsEndsWith (s sfx : String) : Bool :=
  decide (sfx.data <:+ s.data)

/-- JS `s.startsWith(prefixStr)`. -/
def jsStartsWith (s pfx : String) : Bool :=
  decide (pfx.data <+: s.data)

/-! ## `formatMarketplaceName` (api.ts lines 31–62)

The general branch chains two end-anchored regex replacements, a separator
replacement, and per-word capitalization.  They are embedded over
`List Char`. -/

/-- Does the list match the (case-insensitive) regex `_v\d+` in full?  Used
to locate the end-anchored match of `replace(/_v\d+$/i, '')`. -/
def isVSuffixAt : List Char → Bool
  | c :: d :: ds => c == '_' && (d == 'v' || d == 'V') && !ds.isEmpty && ds.all Char.isDigit
  | _ => false

/-- Does the list match the regex `_\d+` in full?  Used to locate the
end-anchored match of `replace(/_\d+$/i, '')`. -/
def isNumSuffixAt : List Char → Bool
  | c :: ds => c == '_' && !ds.isEmpty && ds.all Char.isDigit
  | [] => false

/-- Replace the leftmost end-anchored match (the suffix satisfying `p`
starting earliest) by the empty string; the whole list if no suffix
matches.  This is JS `replace` with an end-anchored pattern. -/
def stripEndMatch (p : List Char → Bool) : List Char → List Char
  | [] => []
  | c :: cs => if p (c :: cs) then [] else c :: stripEndMatch p cs

/-- JS `replace(/[-_]/g, ' ')`, one character at a time. -/
def sepToSpace (c : Char) : Char :=
  if c == '-' || c == '_' then ' ' else c

/-- JS `word.charAt(0).toUpperCase() + word.slice(1).toLowerCase()`. -/
def capWord : List Char → List Char
  | [] => []
  | c :: cs => Char.toUpper c :: cs.map Char.toLower

/-- Prepend a character to the first piece of a split result. -/
def consHead (c : Char) : List (List Char) → List (List Char)
  | [] => [[c]]
  | w :: ws => (c :: w) :: ws

/-- JS `s.split(' ')` (split at every space; `""` yields `[""]`). -/
def splitSp : List Char → List (List Char)
  | [] => [[]]
  | c :: cs => if c = ' ' then [] :: splitSp cs else consHead c (splitSp cs)

/-- JS `parts.join(' ')`. -/
def joinSp : List (List Char) → List Char
  | [] => []
  | [w] => w
  | w :: ws => w ++ ' ' :: joinSp ws

/-- The split / capitalize / join pipeline of `formatMarketplaceName`. -/
def titleCase (l : List Char) : List Char :=
  joinSp ((splitSp l).map capWord)

/-- The general (non-special-cased) branch of `formatMarketplaceName`. -/
def generalFormat (l : List Char) : List Char :=
  titleCase ((stripEndMatch isNumSuffixAt (stripEndMatch isVSuffixAt l)).map sepToSpace)

/-- `formatMarketplaceName` from api.ts lines 31–62: special cases for
Topaz / TradePort / BluMove, otherwise version-suffix stripping, separator
replacement and title casing. -/
def formatMarketplaceName (s : String) : String :=
  if s = "" then "Unknown"
  else if jsIncludes (jsLower s) "topaz" then "Topaz (Deprecated)"
  else if jsIncludes (jsLower s) "tradeport" then "TradePort"
  else if jsIncludes (jsLower s) "bluemove" then "Bluemove"
  else ⟨generalFormat s.data⟩

example : formatMarketplaceName "wapal_v2" = "Wapal" := by decide
example : formatMarketplaceName "tradeport_v1" = "TradePort" := by decide
example : formatMarketplaceName "souffl3-beta" = "Souffl3 Beta" := by decide
example : formatMarketplaceName "_v1" = "" := by decide

/-! ## `convertIpfsUrl` (api.ts lines 81–92) and image-URL helpers -/

/-- Rewrite a decentralized-storage URI `ipfs://hash` to the HTTP gateway
URL `https://ipfs.io/ipfs/hash`; other URLs pass through unchanged. -/
def convertIpfsUrl (url : String) : String :=
  if url = "" then url
  else if jsStartsWith url "ipfs://" then "https://ipfs.io/ipfs/" ++ ⟨url.data.drop 7⟩
  else url

example : convertIpfsUrl "ipfs://abc" = "https://ipfs.io/ipfs/abc" := by decide
example : convertIpfsUrl "https://x/a.png" = "https://x/a.png" := by decide

/-- Recognized image extensions (api.ts lines 126–127 and 160–161); the
argument is expected to be already lowercased. -/
def hasImageExt (s : String) : Bool :=
  jsEndsWith s ".jpg" || jsEndsWith s ".jpeg" || jsEndsWith s ".png" ||
  jsEndsWith s ".gif" || jsEndsWith s ".webp" || jsEndsWith s ".svg"

/-- Recognized video extensions (api.ts line 133). -/
def hasVideoExt (s : String) : Bool :=
  jsEndsWith s ".mp4" || jsEndsWith s ".webm" || jsEndsWith s ".mov"

/-! ## `encodeURIComponent` (ASCII-faithful model with UTF-8 percent
encoding for the rest) -/

/-- Uppercase hexadecimal digit for a value below 16. -/
def hexDigit (n : Nat) : Char :=
  if n < 10 then Char.ofNat (48 + n) else Char.ofNat (55 + n)

/-- Characters `encodeURIComponent` leaves unescaped:
`A–Z a–z 0–9 - _ . ! ~ * ' ( )`. -/
def uriUnescaped (c : Char) : Bool :=
  c.isAlphanum || c == '-' || c == '_' || c == '.' || c == '!' || c == '~' ||
  c == '*' || c == '\x27' || c == '(' || c == ')'

/-- Percent-encode one character (UTF-8 bytes, uppercase hex). -/
def encodeChar (c : Char) : List Char :=
  if uriUnescaped c then [c]
  else ((String.utf8EncodeChar c).map
    (fun b => ['%', hexDigit (b.toNat / 16), hexDigit (b.toNat % 16)])).flatten

/-- JS `encodeURIComponent`. -/
def encodeURIComponent (s : String) : String :=
  ⟨(s.data.map encodeChar).flatten⟩

example : encodeURIComponent "My NFT #1" = "My%20NFT%20%231" := by decide

/-- The generated placeholder image URL (api.ts lines 309–310, 523–524,
768–769, 879–880). -/
def placeholderUrl (text : String) : String :=
  "https://via.placeholder.com/500x500?text=" ++ encodeURIComponent text

/-! ## `getBestImageUrl` (api.ts lines 98–295) -/

/-- The image-bearing fields of a fetched JSON metadata document
(api.ts lines 181–201). -/
structure JsonMeta where
  image : Option String
  image_url : Option String
  imageUrl : Option String
  animation_url : Option String
  animationUrl : Option String
deriving DecidableEq

/-- Outcome of one `fetch` of a linked JSON document: the transport (or
JSON decoding) threw, the response was not `ok`, or a decoded body. -/
inductive FetchResult where
  | fail
  | notOk
  | ok (m : JsonMeta)
deriving DecidableEq

/-- Field priority inside a fetched metadata document:
`image`, `image_url`, `imageUrl`, `animation_url`, `animationUrl`
(api.ts lines 181–201, repeated at 221–240 and 260–279). -/
def metaImageField (m : JsonMeta) : Option String :=
  if truthyS m.image then m.image
  else if truthyS m.image_url then m.image_url
  else if truthyS m.imageUrl then m.imageUrl
  else if truthyS m.animation_url then m.animation_url
  else if truthyS m.animationUrl then m.animationUrl
  else none

/-- One step-6 attempt: fetch `url`; on success extract the first truthy
image field and rewrite it; any failure (thrown fetch, non-ok status,
missing fields) yields `none` so that resolution continues. -/
def tryJsonFetch (fetchJson : String → FetchResult) (url : String) : Option String :=
  match fetchJson url with
  | .ok m => (metaImageField m).map convertIpfsUrl
  | _ => none

/-- The `cdn_asset_uris` record selected by the GraphQL queries. -/
structure CdnAssetUris where
  cdn_image_uri : Option String
  asset_uri : Option String
  cdn_animation_uri : Option String
  raw_animation_uri : Option String
  raw_image_uri : Option String
  cdn_json_uri : Option String
deriving DecidableEq

/-- `getBestImageUrl(cdnAssetUris, tokenName, token_uri)`: the prioritized
image-URL resolution of api.ts lines 98–295.  `fetchJson` is the network
oracle; `tokenName` is only used for logging in the source and is inert
here.  Returns `""` when no source is usable. -/
def getBestImageUrl (fetchJson : String → FetchResult) (cdnAssetUris : Option CdnAssetUris)
    (tokenName : String) (token_uri : Option String) : String :=
  match cdnAssetUris with
  | none => ""
  | some a =>
    let _ := tokenName
    if truthyS a.cdn_image_uri then a.cdn_image_uri.getD ""
    else if truthyS a.raw_image_uri then convertIpfsUrl (a.raw_image_uri.getD "")
    else if truthyS a.cdn_animation_uri then a.cdn_animation_uri.getD ""
    else if truthyS a.raw_animation_uri then convertIpfsUrl (a.raw_animation_uri.getD "")
    else if truthyS a.asset_uri && hasImageExt (jsLower (a.asset_uri.getD "")) then
      convertIpfsUrl (a.asset_uri.getD "")
    else
      match (if truthyS a.cdn_json_uri then
               tryJsonFetch fetchJson (a.cdn_json_uri.getD "") else none) with
      | some r => r
      | none =>
        match (if truthyS a.asset_uri && !truthyS a.cdn_json_uri &&
                  jsEndsWith (jsLower (a.asset_uri.getD "")) ".json" then
                 tryJsonFetch fetchJson (convertIpfsUrl (a.asset_uri.getD "")) else none) with
        | some r => r
        | none =>
          match (if truthyS token_uri && (!truthyS a.asset_uri || !truthyS a.cdn_json_uri) then
                   tryJsonFetch fetchJson (convertIpfsUrl (token_uri.getD "")) else none) with
          | some r => r
          | none =>
            if truthyS a.asset_uri && !jsEndsWith (jsLower (a.asset_uri.getD "")) ".json" then
              convertIpfsUrl (a.asset_uri.getD "")
            else ""

/-! ## Listing records and normalization (api.ts lines 494–553) -/

/-- The `current_token_data` sub-record of a marketplace listing. -/
structure TokenData where
  token_uri : Option String
  token_name : Option String
  description : Option String
  cdn_asset_uris : Option CdnAssetUris
  collection_id : Option String
deriving DecidableEq

/-- Default for `listing.current_token_data || {}`. -/
def TokenData.empty : TokenData := ⟨none, none, none, none, none⟩

/-- The `collection_data` sub-record of a marketplace listing.  The source
also reads `collectionData.description` (line 536) although the query never
selects it, so the field is modelled. -/
structure CollectionData where
  collection_name : Option String
  uri : Option String
  creator_address : Option String
  description : Option String
deriving DecidableEq

/-- Default for `listing.collection_data || {}`. -/
def CollectionData.empty : CollectionData := ⟨none, none, none, none⟩

/-- One raw row of `current_nft_marketplace_listings`. -/
structure Listing where
  token_name : Option String
  token_data_id : Option String
  seller : Option String
  price : Option String
  marketplace : Option String
  listing_id : Option String
  collection_id : Option String
  collection_data : Option CollectionData
  current_token_data : Option TokenData
deriving DecidableEq

/-- The normalized display record (the `NFT` type), restricted to the
fields the claims are about; the floating-point `price` conversion and the
`Date` fields are outside the shallow embedding.  `hasCompleteMetadata` is
optional because the wallet-NFT path never sets it. -/
structure NFTRec where
  id : String
  name : String
  description : String
  image_url : String
  marketplace : String
  collection_name : String
  creator_address : String
  owner_address : String
  listing_id : String
  collection_id : String
  token_uri : String
  hasCompleteMetadata : Option Bool
deriving DecidableEq

/-- The filter of api.ts lines 496–505: Topaz listings are always kept,
others require a listing-level or token-level `token_name`. -/
def keepListing (l : Listing) : Bool :=
  if truthyS l.marketplace && jsIncludes (jsLower (l.marketplace.getD "")) "topaz" then true
  else
    truthyS l.token_name ||
      (match l.current_token_data with
       | some td => truthyS td.token_name
       | none => false)

/-- The image URL computed before the placeholder substitution
(api.ts lines 512–519): `getBestImageUrl` is consulted only when
`cdn_asset_uris` is truthy. -/
def listingRawImage (fetchJson : String → FetchResult) (l : Listing) : String :=
  let tokenData := l.current_token_data.getD TokenData.empty
  match tokenData.cdn_asset_uris with
  | some uris =>
    getBestImageUrl fetchJson (some uris)
      (jsOr l.token_name (jsOr tokenData.token_name "NFT")) tokenData.token_uri
  | none => ""

/-- The per-listing mapping of api.ts lines 506–552: image resolution with
placeholder fallback (the placeholder text is the listing-level
`token_name`, or the random id oracle `randId` when that is falsy), the
metadata-completeness flag, and the defaulted display fields.  Note that
the flag's `hasImage` conjunct is computed after the placeholder has been
substituted. -/
def normalizeListing (fetchJson : String → FetchResult) (randId : String) (l : Listing) : NFTRec :=
  let tokenData := l.current_token_data.getD TokenData.empty
  let collectionData := l.collection_data.getD CollectionData.empty
  let imageUrl0 := listingRawImage fetchJson l
  let imageUrl :=
    if imageUrl0 == "" then placeholderUrl (jsOr l.token_name randId) else imageUrl0
  let hasCompleteName := truthyS l.token_name || truthyS tokenData.token_name
  let hasDescription := truthyS tokenData.description
  let hasImage := !(imageUrl == "")
  { id := jsOr l.token_data_id ("listing-" ++ (match l.listing_id with
      | some s => s
      | none => "undefined"))
    name := jsOr l.token_name (jsOr tokenData.token_name
      ("NFT #" ++ jsOr l.listing_id "Unknown"))
    description := jsOr tokenData.description
      (jsOr collectionData.description "No description available")
    image_url := imageUrl
    marketplace := formatMarketplaceName (jsOr l.marketplace "Unknown")
    collection_name := jsOr collectionData.collection_name "Unknown Collection"
    creator_address := collectionData.creator_address.getD ""
    owner_address := l.seller.getD ""
    listing_id := l.listing_id.getD ""
    collection_id := jsOr tokenData.collection_id (l.collection_id.getD "")
    token_uri := jsOr tokenData.token_uri (collectionData.uri.getD "")
    hasCompleteMetadata := some (hasCompleteName && hasDescription && hasImage) }

/-! ## `fetchActiveListings` (api.ts lines 320–618) and the listings cache -/

/-- The fields serialized into the cache key (api.ts line 342). Two
parameter records agree on the key iff they agree on these fields, so the
key is modelled as the record itself rather than its JSON string. -/
structure CacheParams where
  page : Nat
  pageSize : Nat
  collection : Option String
  marketplace : Option String
  sortOrder : String
  hideIncompleteMetadata : Bool
deriving DecidableEq

/-- Parameters of `fetchActiveListings` (defaults as in api.ts 330–339). -/
structure ListingsParams where
  page : Nat := 1
  pageSize : Nat := 10
  collection : Option String := none
  marketplace : Option String := none
  sortOrder : String := "timestamp_desc"
  hideIncompleteMetadata : Bool := false
  skipCache : Bool := false
deriving DecidableEq

/-- The cache key of a parameter record. -/
def cacheKeyOf (p : ListingsParams) : CacheParams :=
  ⟨p.page, p.pageSize, p.collection, p.marketplace, p.sortOrder, p.hideIncompleteMetadata⟩

/-- The payload stored in the cache and returned to callers. -/
structure Payload where
  nfts : List NFTRec
  total : Nat
deriving DecidableEq

/-- One cache entry (interface `ListingsCache`, api.ts lines 16–20). -/
structure CacheEntry where
  timestamp : Int
  data : Payload
  params : CacheParams
deriving DecidableEq

/-- The in-process listings cache, a key→entry map. -/
def Cache := CacheParams → Option CacheEntry

/-- The initial empty cache (`const listingsCache = {}`). -/
def emptyCache : Cache := fun _ => none

/-- Five minutes in milliseconds (api.ts line 25). -/
def CACHE_EXPIRATION : Int := 5 * 60 * 1000

/-- The cache consultation of api.ts lines 346–356: a stored payload is
returned only when the cache is not skipped, an entry exists, and
`now - timestamp < CACHE_EXPIRATION`. -/
def cacheLookupFresh (c : Cache) (p : ListingsParams) (now : Int) : Option Payload :=
  if p.skipCache then none
  else
    match c (cacheKeyOf p) with
    | some e => if now - e.timestamp < CACHE_EXPIRATION then some e.data else none
    | none => none

/-- The GraphQL `limit` sent upstream (api.ts line 393). -/
def requestLimit (p : ListingsParams) : Nat :=
  if truthyS p.marketplace then p.pageSize * 5
  else if p.hideIncompleteMetadata then p.pageSize * 3
  else p.pageSize

/-- The GraphQL `offset` sent upstream (api.ts line 394). -/
def requestOffset (p : ListingsParams) : Nat :=
  if p.hideIncompleteMetadata || truthyS p.marketplace then 0
  else (p.page - 1) * p.pageSize

/-- The decoded shape of a successful listings response: the rows and the
optional aggregate count. -/
structure ListingsResponse where
  listings : List Listing
  totalCount : Option Nat
deriving DecidableEq

/-- Outcome of one gateway call: the transport threw, the HTTP status was
not ok, the payload carried a GraphQL `errors` list, the `data` shape was
missing or malformed, or a well-formed response. -/
inductive GqlOutcome (α : Type) where
  | throw
  | httpError
  | gqlErrors
  | malformed
  | ok (v : α)
deriving DecidableEq

/-- Is the outcome one of the failure kinds (a)–(d)? -/
def GqlOutcome.isFailure {α : Type} : GqlOutcome α → Bool
  | .ok _ => false
  | _ => true

/-- The fetch-and-normalize path of `fetchActiveListings` (everything after
the cache check, api.ts lines 391–617): failure outcomes return the empty
sentinel and leave the cache alone; a successful response is filtered,
normalized, optionally metadata-filtered and client-side paginated, and the
result is stored in the cache under the request key with the current
timestamp. -/
def processListings (o : GqlOutcome ListingsResponse) (fetchJson : String → FetchResult)
    (randId : String) (p : ListingsParams) (c : Cache) (now : Int) : Payload × Cache :=
  match o with
  | .ok resp =>
    let totalCount :=
      match resp.totalCount with
      | some n => if n = 0 then resp.listings.length else n
      | none => resp.listings.length
    let nfts := (resp.listings.filter keepListing).map (normalizeListing fetchJson randId)
    let filteredNfts :=
      if p.hideIncompleteMetadata then nfts.filter (fun n => truthyB n.hasCompleteMetadata)
      else nfts
    let paginatedNfts :=
      if p.hideIncompleteMetadata then
        (filteredNfts.drop ((p.page - 1) * p.pageSize)).take p.pageSize
      else filteredNfts
    let result : Payload :=
      ⟨paginatedNfts, if p.hideIncompleteMetadata then filteredNfts.length else totalCount⟩
    (result, fun k => if k = cacheKeyOf p then some ⟨now, result, cacheKeyOf p⟩ else c k)
  | _ => (⟨[], 0⟩, c)

/-- `fetchActiveListings`: consult the cache, otherwise fetch and process.
`o` is the gateway oracle for this call, `now` the value of `Date.now()`.
Returns the payload and the cache after the call. -/
def fetchActiveListings (o : GqlOutcome ListingsResponse) (fetchJson : String → FetchResult)
    (randId : String) (p : ListingsParams) (c : Cache) (now : Int) : Payload × Cache :=
  match cacheLookupFresh c p now with
  | some d => (d, c)
  | none => processListings o fetchJson randId p c now

/-- `invalidateListingsCache` (api.ts lines 625–640): with an argument,
delete exactly that serialized key; with no argument, delete every entry. -/
def invalidateListingsCache (specificParams : Option CacheParams) (c : Cache) : Cache :=
  match specificParams with
  | some p => fun k => if k = p then none else c k
  | none => fun _ => none

/-! ## `fetchNFTs` (api.ts lines 646–801) -/

/-- The `current_token_data` sub-record of a wallet ownership row. -/
structure OwnedTokenData where
  token_name : Option String
  token_uri : Option String
  description : Option String
  collection_name : Option String
  creator_address : Option String
  cdn_asset_uris : Option CdnAssetUris
deriving DecidableEq

/-- Default for `ownership.current_token_data || {}`. -/
def OwnedTokenData.empty : OwnedTokenData := ⟨none, none, none, none, none, none⟩

/-- One raw row of `current_token_ownerships_v2`. -/
structure Ownership where
  token_data_id : Option String
  current_token_data : Option OwnedTokenData
deriving DecidableEq

/-- Parameters of `fetchNFTs` (api.ts lines 646–654). -/
structure NFTsParams where
  address : Option String := none
  page : Nat := 1
  pageSize : Nat := 10
  collection : Option String := none
  marketplace : Option String := none
  sortOrder : Option String := none
deriving DecidableEq

/-- The per-ownership mapping of api.ts lines 757–783. -/
def normalizeOwnership (fetchJson : String → FetchResult) (address : String)
    (o : Ownership) : NFTRec :=
  let tokenData := o.current_token_data.getD OwnedTokenData.empty
  let imageUrl0 :=
    match tokenData.cdn_asset_uris with
    | some uris =>
      getBestImageUrl fetchJson (some uris) (jsOr tokenData.token_name "NFT")
        tokenData.token_uri
    | none => ""
  let imageUrl :=
    if imageUrl0 == "" then placeholderUrl (jsOr tokenData.token_name "NFT") else imageUrl0
  { id := o.token_data_id.getD ""
    name := jsOr tokenData.token_name "Unnamed NFT"
    description := tokenData.description.getD ""
    image_url := imageUrl
    marketplace := "Aptos"
    collection_name := tokenData.collection_name.getD ""
    creator_address := tokenData.creator_address.getD ""
    owner_address := address
    listing_id := ""
    collection_id := ""
    token_uri := ""
    hasCompleteMetadata := none }

/-- `fetchNFTs`: empty result without an address; the demo address `all`
delegates to `fetchActiveListings {page, pageSize}`; otherwise the wallet
ownership rows are normalized, optionally filtered client-side by
marketplace, and the reported total is `Math.max(20, rows.length * 2)`
(api.ts line 795).  `w` is the wallet-query oracle and `lo` the listings
oracle used by the demo branch. -/
def fetchNFTs (w : GqlOutcome (List Ownership)) (lo : GqlOutcome ListingsResponse)
    (fetchJson : String → FetchResult) (randId : String) (params : NFTsParams)
    (c : Cache) (now : Int) : Payload × Cache :=
  if !truthyS params.address then (⟨[], 0⟩, c)
  else if params.address.getD "" = "all" then
    fetchActiveListings lo fetchJson randId
      { page := params.page, pageSize := params.pageSize } c now
  else
    match w with
    | .ok ownerships =>
      let total := ownerships.length
      let nfts := ownerships.map (normalizeOwnership fetchJson (params.address.getD ""))
      let filteredNfts :=
        if truthyS params.marketplace then
          nfts.filter (fun n => jsLower n.marketplace == jsLower (params.marketplace.getD ""))
        else nfts
      (⟨filteredNfts, max 20 (total * 2)⟩, c)
    | _ => (⟨[], 0⟩, c)

/-! ## `distributeEvenly` (api.ts lines 1226–1243)

The distribution record is modelled as an association list with JS-object
upsert semantics (update in place if the key exists, append otherwise). -/

/-- JS `obj[k] = v` on an object modelled as an association list. -/
def upsert (m : List (String × Int)) (k : String) (v : Int) : List (String × Int) :=
  if m.any (fun e => e.1 == k) then m.map (fun e => if e.1 == k then (k, v) else e)
  else m ++ [(k, v)]

/-- The `forEach` body of `distributeEvenly`: `base` is the precomputed
`Math.floor(100 / marketplaces.length)`, `total` the marketplace count,
`idx` the current index.  Falsy marketplace names are skipped; the entry at
the last index receives `100 - base * (total - 1)`. -/
def distLoop (base : Int) (total : Nat) : Nat → List (Option String) →
    List (String × Int) → List (String × Int)
  | _, [], dist => dist
  | idx, m :: rest, dist =>
    let dist' :=
      if truthyS m then
        upsert dist (formatMarketplaceName (m.getD ""))
          (if idx = total - 1 then 100 - base * ((total : Int) - 1) else base)
      else dist
    distLoop base total (idx + 1) rest dist'

/-- `distributeEvenly(marketplaces)` applied to the empty distribution (the
state in which `fetchAggregatorStats` invokes it when total sales is zero
or the sales lookup fails). -/
def distributeEvenly (marketplaces : List (Option String)) : List (String × Int) :=
  distLoop ((100 : Int) / (marketplaces.length : Int)) marketplaces.length 0 marketplaces []

example :
    distributeEvenly [some "wapal", some "bluemove", some "rarible"] =
      [("Wapal", 33), ("Bluemove", 33), ("Rarible", 34)] := by decide

example : distributeEvenly [some "tradeport_v1", some "tradeport_v2"] =
    [("TradePort", 50)] := by decide

/-! ## Claim C4: cache invalidation -/

/-- C4.  `invalidateListingsCache` with no argument makes every previously
cached key a miss; with a specific params object it removes exactly the
entry for that key and leaves every other entry unchanged. -/
theorem c4_invalidate_cache (c : Cache) (p : CacheParams) :
    (∀ k, invalidateListingsCache none c k = none) ∧
    invalidateListingsCache (some p) c p = none ∧
    (∀ k, k ≠ p → invalidateListingsCache (some p) c k = c k) := by
  refine ⟨fun k => rfl, ?_, fun k hk => ?_⟩
  · simp [invalidateListingsCache]
  · simp [invalidateListingsCache, hk]

/-- Witness for C4 at a concrete cache and pair of distinct keys. -/
theorem c4_invalidate_cache_witness :
    ((⟨2, 2, none, none, "x", false⟩ : CacheParams) ≠ ⟨1, 1, none, none, "t", false⟩) ∧
    invalidateListingsCache (some ⟨1, 1, none, none, "t", false⟩) emptyCache
        ⟨2, 2, none, none, "x", false⟩ =
      emptyCache ⟨2, 2, none, none, "x", false⟩ :=
  ⟨by decide,
   (c4_invalidate_cache emptyCache ⟨1, 1, none, none, "t", false⟩).2.2
     ⟨2, 2, none, none, "x", false⟩ (by decide)⟩

/-! ## Claim C6: failure kinds (a)–(d) yield the sentinel and leave the
cache unchanged -/

/-- C6.  When the gateway call fails in any of the four ways — the
transport throws, the HTTP status is not ok, the payload carries a GraphQL
`errors` list, or the `data` shape is malformed — and the cache did not
serve the request, `fetchActiveListings` returns the `{nfts: [], total: 0}`
sentinel without an exception and the cache is left exactly as it was. -/
theorem c6_failure_sentinel (o : GqlOutcome ListingsResponse)
    (fetchJson : String → FetchResult) (randId : String) (p : ListingsParams)
    (c : Cache) (now : Int)
    (hmiss : cacheLookupFresh c p now = none) (hfail : o.isFailure = true) :
    fetchActiveListings o fetchJson randId p c now = (⟨[], 0⟩, c) := by
  unfold fetchActiveListings
  rw [hmiss]
  cases o <;> simp_all [processListings, GqlOutcome.isFailure]

/-- Witness for C6: a thrown transport call on an empty cache. -/
theorem c6_failure_sentinel_witness :
    cacheLookupFresh emptyCache {} 0 = none ∧
    (GqlOutcome.throw : GqlOutcome ListingsResponse).isFailure = true ∧
    fetchActiveListings .throw (fun _ => .fail) "r" {} emptyCache 0 =
      (⟨[], 0⟩, emptyCache) :=
  ⟨rfl, rfl, c6_failure_sentinel .throw (fun _ => .fail) "r" {} emptyCache 0 rfl rfl⟩

/-! ## Claim C3: cache reuse iff fresh -/

/-- Unfolding equation for `fetchActiveListings`. -/
theorem fetchActiveListings_eq (o : GqlOutcome ListingsResponse)
    (fetchJson : String → FetchResult) (randId : String) (p : ListingsParams)
    (c : Cache) (now : Int) :
    fetchActiveListings o fetchJson randId p c now =
      match cacheLookupFresh c p now with
      | some d => (d, c)
      | none => processListings o fetchJson randId p c now := rfl

/-- C3.  After a successful fetch at time `t0` that stored its payload
under the request key, a later call with the same parameters returns
exactly the stored payload and leaves the cache untouched as long as
`now - timestamp < CACHE_EXPIRATION`; once `CACHE_EXPIRATION ≤ now -
timestamp` the entry is treated as absent and a fresh fetch is performed
(the call behaves exactly like the no-cache-hit path). -/
theorem c3_cache_freshness (resp : ListingsResponse) (fetchJson : String → FetchResult)
    (randId : String) (p : ListingsParams) (c : Cache) (t0 : Int)
    (hskip : p.skipCache = false) (hmiss : cacheLookupFresh c p t0 = none) :
    (∀ (t1 : Int) (o2 : GqlOutcome ListingsResponse) (f2 : String → FetchResult)
        (r2 : String), t1 - t0 < CACHE_EXPIRATION →
      fetchActiveListings o2 f2 r2 p
          (fetchActiveListings (.ok resp) fetchJson randId p c t0).2 t1 =
        fetchActiveListings (.ok resp) fetchJson randId p c t0) ∧
    (∀ (t1 : Int) (o2 : GqlOutcome ListingsResponse) (f2 : String → FetchResult)
        (r2 : String), CACHE_EXPIRATION ≤ t1 - t0 →
      fetchActiveListings o2 f2 r2 p
          (fetchActiveListings (.ok resp) fetchJson randId p c t0).2 t1 =
        processListings o2 f2 r2 p
          (fetchActiveListings (.ok resp) fetchJson randId p c t0).2 t1) := by
  have h1 : fetchActiveListings (.ok resp) fetchJson randId p c t0
      = processListings (.ok resp) fetchJson randId p c t0 := by
    unfold fetchActiveListings
    rw [hmiss]
  have hstore : (fetchActiveListings (.ok resp) fetchJson randId p c t0).2 (cacheKeyOf p)
      = some ⟨t0, (fetchActiveListings (.ok resp) fetchJson randId p c t0).1, cacheKeyOf p⟩ := by
    rw [h1]
    simp [processListings]
  constructor
  · intro t1 o2 f2 r2 ht
    have hl : cacheLookupFresh (fetchActiveListings (.ok resp) fetchJson randId p c t0).2 p t1
        = some (fetchActiveListings (.ok resp) fetchJson randId p c t0).1 := by
      unfold cacheLookupFresh
      rw [hskip, hstore]
      simp [ht]
    rw [fetchActiveListings_eq o2 f2 r2 p _ t1, hl]
  · intro t1 o2 f2 r2 ht
    have hl : cacheLookupFresh (fetchActiveListings (.ok resp) fetchJson randId p c t0).2 p t1
        = none := by
      unfold cacheLookupFresh
      rw [hskip, hstore]
      simp only [if_false, Bool.false_eq_true, ite_false]
      rw [if_neg (by omega)]
    rw [fetchActiveListings_eq o2 f2 r2 p _ t1, hl]

/-- Witness for C3 at a concrete empty cache, trivial response, and the
times 0 (store) and 1 (fresh lookup). -/
theorem c3_cache_freshness_witness :
    ({} : ListingsParams).skipCache = false ∧
    cacheLookupFresh emptyCache {} 0 = none ∧
    ((1 : Int) - 0 < CACHE_EXPIRATION) ∧
    fetchActiveListings .throw (fun _ => .fail) "r2" {}
        (fetchActiveListings (.ok ⟨[], none⟩) (fun _ => .fail) "r" {} emptyCache 0).2 1 =
      fetchActiveListings (.ok ⟨[], none⟩) (fun _ => .fail) "r" {} emptyCache 0 :=
  ⟨rfl, rfl, by decide,
   (c3_cache_freshness ⟨[], none⟩ (fun _ => .fail) "r" {} emptyCache 0 rfl rfl).1
     1 .throw (fun _ => .fail) "r2" (by decide)⟩

/-! ## Claim C5: client-side pagination under the metadata filter -/

/-- C5.  When `hideIncompleteMetadata` is set and the cache does not serve
the request, the upstream is asked for `3 × pageSize` rows (`5 × pageSize`
when a marketplace filter is set) at offset 0, and the returned payload is
the slice `[(page-1)·pageSize, page·pageSize)` of the records that survive
the completeness filter, so at most `pageSize` records come back, each with
`hasCompleteMetadata` true, and the reported total is the filtered count. -/
theorem c5_metadata_filter_pagination (resp : ListingsResponse)
    (fetchJson : String → FetchResult) (randId : String) (p : ListingsParams)
    (c : Cache) (now : Int)
    (hhide : p.hideIncompleteMetadata = true) (_hpage : 1 ≤ p.page)
    (hmiss : cacheLookupFresh c p now = none) :
    requestLimit p = (if truthyS p.marketplace then 5 else 3) * p.pageSize ∧
    requestOffset p = 0 ∧
    (fetchActiveListings (.ok resp) fetchJson randId p c now).1 =
      ⟨((((resp.listings.filter keepListing).map (normalizeListing fetchJson randId)).filter
            (fun n => truthyB n.hasCompleteMetadata)).drop ((p.page - 1) * p.pageSize)).take
          p.pageSize,
        (((resp.listings.filter keepListing).map (normalizeListing fetchJson randId)).filter
            (fun n => truthyB n.hasCompleteMetadata)).length⟩ ∧
    (fetchActiveListings (.ok resp) fetchJson randId p c now).1.nfts.length ≤ p.pageSize ∧
    (∀ n ∈ (fetchActiveListings (.ok resp) fetchJson randId p c now).1.nfts,
      truthyB n.hasCompleteMetadata = true) := by
  have hmain : (fetchActiveListings (.ok resp) fetchJson randId p c now).1 =
      ⟨((((resp.listings.filter keepListing).map (normalizeListing fetchJson randId)).filter
            (fun n => truthyB n.hasCompleteMetadata)).drop ((p.page - 1) * p.pageSize)).take
          p.pageSize,
        (((resp.listings.filter keepListing).map (normalizeListing fetchJson randId)).filter
            (fun n => truthyB n.hasCompleteMetadata)).length⟩ := by
    rw [fetchActiveListings_eq, hmiss]
    simp [processListings, hhide]
  refine ⟨?_, ?_, hmain, ?_, ?_⟩
  · simp [requestLimit, hhide, Nat.mul_comm]
  · simp [requestOffset, hhide]
  · rw [hmain]
    exact List.length_take_le _ _
  · intro n hn
    rw [hmain] at hn
    have hn2 : n ∈ ((((resp.listings.filter keepListing).map
        (normalizeListing fetchJson randId)).filter
          (fun m => truthyB m.hasCompleteMetadata)).drop
            ((p.page - 1) * p.pageSize)).take p.pageSize := hn
    have h3 := List.of_mem_filter (List.mem_of_mem_drop (List.mem_of_mem_take hn2))
    exact h3

/-- Witness for C5: one complete and one incomplete listing, page 1 of
size 1, no marketplace filter. -/
theorem c5_metadata_filter_pagination_witness :
    ({ hideIncompleteMetadata := true, pageSize := 1 } : ListingsParams).hideIncompleteMetadata
        = true ∧
    1 ≤ ({ hideIncompleteMetadata := true, pageSize := 1 } : ListingsParams).page ∧
    cacheLookupFresh emptyCache { hideIncompleteMetadata := true, pageSize := 1 } 0 = none ∧
    (∀ n ∈ (fetchActiveListings
        (.ok ⟨[⟨some "a", none, none, none, some "wapal", none, none, none,
                 some ⟨none, some "a", some "d", none, none⟩⟩,
               ⟨some "b", none, none, none, some "wapal", none, none, none, none⟩], none⟩)
        (fun _ => .fail) "r" { hideIncompleteMetadata := true, pageSize := 1 }
        emptyCache 0).1.nfts,
      truthyB n.hasCompleteMetadata = true) :=
  ⟨rfl, by decide, rfl,
   (c5_metadata_filter_pagination
      ⟨[⟨some "a", none, none, none, some "wapal", none, none, none,
          some ⟨none, some "a", some "d", none, none⟩⟩,
        ⟨some "b", none, none, none, some "wapal", none, none, none, none⟩], none⟩
      (fun _ => .fail) "r" { hideIncompleteMetadata := true, pageSize := 1 }
      emptyCache 0 rfl (by decide) rfl).2.2.2.2⟩

/-! ## Claim C10: wallet-NFT total heuristic -/

/-- C10.  For a wallet query with a non-empty address other than the demo
value `all` whose upstream response yields `n` ownership rows (at most the
requested `limit`, as the upstream guarantees), `fetchNFTs` reports
`total = max 20 (n * 2)` rather than the true owned count, returns at most
`pageSize` records, and leaves the cache untouched. -/
theorem c10_wallet_total_heuristic (ownerships : List Ownership)
    (lo : GqlOutcome ListingsResponse) (fetchJson : String → FetchResult)
    (randId : String) (params : NFTsParams) (c : Cache) (now : Int) (a : String)
    (haddr : params.address = some a) (hne : a ≠ "") (hall : a ≠ "all")
    (hlim : ownerships.length ≤ params.pageSize) :
    (fetchNFTs (.ok ownerships) lo fetchJson randId params c now).1.total =
      max 20 (ownerships.length * 2) ∧
    (fetchNFTs (.ok ownerships) lo fetchJson randId params c now).1.nfts.length ≤
      params.pageSize ∧
    (fetchNFTs (.ok ownerships) lo fetchJson randId params c now).2 = c := by
  have hres : fetchNFTs (.ok ownerships) lo fetchJson randId params c now =
      (⟨if truthyS params.marketplace then
          (ownerships.map (normalizeOwnership fetchJson (params.address.getD ""))).filter
            (fun n => jsLower n.marketplace == jsLower (params.marketplace.getD ""))
        else ownerships.map (normalizeOwnership fetchJson (params.address.getD "")),
        max 20 (ownerships.length * 2)⟩, c) := by
    unfold fetchNFTs
    rw [haddr]
    simp [truthyS, hne, hall]
  rw [hres]
  refine ⟨rfl, ?_, rfl⟩
  by_cases hm : truthyS params.marketplace = true
  · rw [if_pos hm]
    calc ((ownerships.map (normalizeOwnership fetchJson (params.address.getD ""))).filter
          (fun n => jsLower n.marketplace == jsLower (params.marketplace.getD ""))).length
        ≤ (ownerships.map (normalizeOwnership fetchJson (params.address.getD ""))).length :=
          List.length_filter_le _ _
      _ = ownerships.length := List.length_map _ _
      _ ≤ params.pageSize := hlim
  · rw [if_neg hm, List.length_map]
    exact hlim

/-- Witness for C10: a single ownership row for a concrete address. -/
theorem c10_wallet_total_heuristic_witness :
    ({ address := some "0xabc", pageSize := 10 } : NFTsParams).address = some "0xabc" ∧
    ("0xabc" : String) ≠ "" ∧
    ("0xabc" : String) ≠ "all" ∧
    ([(⟨some "t1", none⟩ : Ownership)].length ≤
      ({ address := some "0xabc", pageSize := 10 } : NFTsParams).pageSize) ∧
    (fetchNFTs (.ok [⟨some "t1", none⟩]) .throw (fun _ => .fail) "r"
        { address := some "0xabc", pageSize := 10 } emptyCache 0).1.total =
      max 20 ([(⟨some "t1", none⟩ : Ownership)].length * 2) :=
  ⟨rfl, by decide, by decide, by decide,
   (c10_wallet_total_heuristic [⟨some "t1", none⟩] .throw (fun _ => .fail) "r"
      { address := some "0xabc", pageSize := 10 } emptyCache 0 "0xabc"
      rfl (by decide) (by decide) (by decide)).1⟩

/-! ## Claim C2: step-6 failures are swallowed and resolution continues -/

/-- C2.  `getBestImageUrl` is a total function of its oracle (every throw
site of the source sits inside a `try/catch`), and a failed or fruitless
step-6 metadata fetch never aborts resolution: (1) when the CDN-JSON fetch
fails (or yields no image field) and a non-JSON asset URI remains, that
asset URI is still used; (2) when the CDN-JSON fetch fails and no asset URI
exists, the token-URI fetch is still consulted and its image field is
returned rewritten. -/
theorem c2_step6_failure_swallowed :
    (∀ (fetchJson : String → FetchResult) (a : CdnAssetUris) (tn : String)
        (tu : Option String) (j u : String),
      a.cdn_image_uri = none → a.raw_image_uri = none → a.cdn_animation_uri = none →
      a.raw_animation_uri = none → a.asset_uri = some u → a.cdn_json_uri = some j →
      u ≠ "" → j ≠ "" →
      hasImageExt (jsLower u) = false →
      jsEndsWith (jsLower u) ".json" = false →
      tryJsonFetch fetchJson j = none →
      getBestImageUrl fetchJson (some a) tn tu = convertIpfsUrl u) ∧
    (∀ (fetchJson : String → FetchResult) (tn : String) (j t v : String) (m : JsonMeta),
      j ≠ "" → t ≠ "" →
      tryJsonFetch fetchJson j = none →
      fetchJson (convertIpfsUrl t) = .ok m →
      metaImageField m = some v →
      getBestImageUrl fetchJson (some ⟨none, none, none, none, none, some j⟩) tn (some t) =
        convertIpfsUrl v) := by
  constructor
  · intro fetchJson a tn tu j u h1 h2 h3 h4 h5 h6 hu hj hext hjson hfetch
    obtain ⟨c1, c2, c3, c4, c5, c6⟩ := a
    cases h1; cases h2; cases h3; cases h4; cases h5; cases h6
    simp [getBestImageUrl, truthyS, hu, hj, hext, hjson, hfetch]
  · intro fetchJson tn j t v m hj ht hjson hfetch hfield
    have h2 : tryJsonFetch fetchJson (convertIpfsUrl t) = some (convertIpfsUrl v) := by
      simp [tryJsonFetch, hfetch, hfield]
    simp [getBestImageUrl, truthyS, hj, ht, hjson, h2]

/-- Witness for C2: a failing CDN-JSON oracle with (1) a leftover binary
asset URI and (2) a token URI whose metadata carries an image. -/
theorem c2_step6_failure_swallowed_witness :
    getBestImageUrl
        (fun url => if url == "J" then .fail else .ok ⟨some "x.png", none, none, none, none⟩)
        (some ⟨none, some "a.bin", none, none, none, some "J"⟩) "T" none =
      convertIpfsUrl "a.bin" ∧
    getBestImageUrl
        (fun url => if url == "J" then .fail else .ok ⟨some "x.png", none, none, none, none⟩)
        (some ⟨none, none, none, none, none, some "J"⟩) "T" (some "t") =
      convertIpfsUrl "x.png" :=
  ⟨c2_step6_failure_swallowed.1
     (fun url => if url == "J" then .fail else .ok ⟨some "x.png", none, none, none, none⟩)
     ⟨none, some "a.bin", none, none, none, some "J"⟩ "T" none "J" "a.bin"
     rfl rfl rfl rfl rfl rfl (by decide) (by decide) (by decide) (by decide) (by decide),
   c2_step6_failure_swallowed.2
     (fun url => if url == "J" then .fail else .ok ⟨some "x.png", none, none, none, none⟩)
     "T" "J" "t" "x.png" ⟨some "x.png", none, none, none, none⟩
     (by decide) (by decide) (by decide) (by decide) (by decide)⟩

/-! ## Claim C1: image-resolution postconditions -/

/-- The generated placeholder URL is never the empty string. -/
theorem placeholderUrl_ne_empty (t : String) : placeholderUrl t ≠ "" := by
  intro h
  have h2 := congrArg String.length h
  rw [placeholderUrl, String.length_append] at h2
  have h3 : 0 < ("https://via.placeholder.com/500x500?text=" : String).length := by decide
  have h4 : ("" : String).length = 0 := by decide
  omega

/-- Counterexample to C1 as stated.  First, a record exposing nothing but a
JSON-metadata URI whose fetched body contains an `image_url` field resolves
to the body's `image` field — which takes priority — and not to the
rewritten `image_url` value.  Second, a record with no usable field whose
listing-level `token_name` is empty gets a placeholder built from the
random-id oracle, which does not contain the URL-encoded display name
(here `Foo`, taken from the token-level name). -/
theorem c1_counterexample :
    (getBestImageUrl
        (fun url => if url == "J" then
            .ok ⟨some "a.png", some "b.png", none, none, none⟩ else .fail)
        (some ⟨none, none, none, none, none, some "J"⟩) "T" none = "a.png" ∧
      convertIpfsUrl "b.png" ≠ "a.png") ∧
    ((normalizeListing (fun _ => .fail) "abc123"
        ⟨none, none, none, none, none, none, none, none,
          some ⟨none, some "Foo", none, none, none⟩⟩).name = "Foo" ∧
      jsIncludes
        (normalizeListing (fun _ => .fail) "abc123"
          ⟨none, none, none, none, none, none, none, none,
            some ⟨none, some "Foo", none, none, none⟩⟩).image_url
        (encodeURIComponent "Foo") = false) := by decide

/-- C1, amended.  (1) For a record exposing only an asset URI with a
recognized image extension, the resolved URL is that URI after the IPFS
rewrite.  (2) For a record exposing nothing but a CDN-JSON URI whose
fetched body contains `image_url` and no higher-priority `image` field, the
resolved URL is the rewritten `image_url` value.  (3) For a listing whose
image resolution produced nothing, the final `image_url` is the placeholder
URL encoding the listing-level `token_name` — the display name in that
case — provided that name is non-empty (otherwise the placeholder encodes
the random identifier instead). -/
theorem c1_image_resolution :
    (∀ (fetchJson : String → FetchResult) (u tn : String),
      u ≠ "" → hasImageExt (jsLower u) = true →
      getBestImageUrl fetchJson (some ⟨none, some u, none, none, none, none⟩) tn none =
        convertIpfsUrl u) ∧
    (∀ (fetchJson : String → FetchResult) (j v tn : String) (m : JsonMeta),
      j ≠ "" → fetchJson j = .ok m → m.image = none → m.image_url = some v → v ≠ "" →
      getBestImageUrl fetchJson (some ⟨none, none, none, none, none, some j⟩) tn none =
        convertIpfsUrl v) ∧
    (∀ (fetchJson : String → FetchResult) (randId : String) (l : Listing),
      truthyS l.token_name = true → listingRawImage fetchJson l = "" →
      (normalizeListing fetchJson randId l).image_url =
          placeholderUrl (l.token_name.getD "") ∧
        (normalizeListing fetchJson randId l).name = l.token_name.getD "") := by
  refine ⟨?_, ?_, ?_⟩
  · intro fetchJson u tn hu hext
    simp [getBestImageUrl, truthyS, hu, hext]
  · intro fetchJson j v tn m hj hfetch himg hurl hv
    have h2 : tryJsonFetch fetchJson j = some (convertIpfsUrl v) := by
      simp [tryJsonFetch, hfetch, metaImageField, himg, truthyS, hurl, hv]
    simp [getBestImageUrl, truthyS, hj, h2]
  · intro fetchJson randId l htn hraw
    obtain ⟨tname, hname⟩ : ∃ s, l.token_name = some s := by
      cases h : l.token_name with
      | none => rw [h] at htn; exact absurd htn (by decide)
      | some s => exact ⟨s, rfl⟩
    have hs : ¬(tname == "") = true := by
      rw [hname] at htn
      simpa [truthyS] using htn
    constructor
    · simp [normalizeListing, hraw, hname, jsOr, hs]
    · simp [normalizeListing, hname, jsOr, hs]

/-- Witness for the amended C1 at concrete records. -/
theorem c1_image_resolution_witness :
    getBestImageUrl (fun _ => .fail)
        (some ⟨none, some "ipfs://pic.png", none, none, none, none⟩) "T" none =
      convertIpfsUrl "ipfs://pic.png" ∧
    getBestImageUrl (fun url => if url == "J" then
          .ok ⟨none, some "b.png", none, none, none⟩ else .fail)
        (some ⟨none, none, none, none, none, some "J"⟩) "T" none =
      convertIpfsUrl "b.png" ∧
    (normalizeListing (fun _ => .fail) "abc123"
        ⟨some "Foo", none, none, none, none, none, none, none, none⟩).image_url =
      placeholderUrl "Foo" :=
  ⟨c1_image_resolution.1 (fun _ => .fail) "ipfs://pic.png" "T" (by decide) (by decide),
   c1_image_resolution.2.1
     (fun url => if url == "J" then .ok ⟨none, some "b.png", none, none, none⟩ else .fail)
     "J" "b.png" "T" ⟨none, some "b.png", none, none, none⟩
     (by decide) (by decide) rfl rfl (by decide),
   (c1_image_resolution.2.2 (fun _ => .fail) "abc123"
     ⟨some "Foo", none, none, none, none, none, none, none, none⟩
     (by decide) (by decide)).1⟩

/-! ## Claim C9: the metadata-completeness flag -/

/-- Counterexample to C9 as stated: a listing with a name but no raw
description produces a record whose final `name`, `description` and
`image_url` fields are all non-empty — the defaults `"No description
available"` and the placeholder have been substituted — yet whose
`hasCompleteMetadata` flag is false. -/
theorem c9_counterexample :
    truthyB (normalizeListing (fun _ => .fail) "r"
        ⟨some "x", none, none, none, none, none, none, none, none⟩).hasCompleteMetadata
      = false ∧
    (normalizeListing (fun _ => .fail) "r"
        ⟨some "x", none, none, none, none, none, none, none, none⟩).name ≠ "" ∧
    (normalizeListing (fun _ => .fail) "r"
        ⟨some "x", none, none, none, none, none, none, none, none⟩).description ≠ "" ∧
    (normalizeListing (fun _ => .fail) "r"
        ⟨some "x", none, none, none, none, none, none, none, none⟩).image_url ≠ "" := by
  decide

/-- C9, amended.  The flag is computed from the raw upstream fields, not
the defaulted record fields: it is true iff a listing-level or token-level
`token_name` is non-empty and the token-level `description` is non-empty.
The resolved-image conjunct of the source is vacuous because the
placeholder — which is never empty — has already been substituted when the
flag is computed. -/
theorem c9_metadata_flag (fetchJson : String → FetchResult) (randId : String) (l : Listing) :
    (normalizeListing fetchJson randId l).hasCompleteMetadata =
      some ((truthyS l.token_name ||
          truthyS ((l.current_token_data.getD TokenData.empty).token_name)) &&
        truthyS ((l.current_token_data.getD TokenData.empty).description)) := by
  have himg : ¬((if listingRawImage fetchJson l == "" then
      placeholderUrl (jsOr l.token_name randId) else listingRawImage fetchJson l) == "")
        = true := by
    by_cases h : (listingRawImage fetchJson l == "") = true
    · rw [if_pos h]
      simpa using placeholderUrl_ne_empty (jsOr l.token_name randId)
    · rw [if_neg h]
      exact h
  simp only [normalizeListing, himg]
  simp

/-! ## Claim C7: the even marketplace distribution -/

/-- Counterexample to C7 as stated: two distinct raw marketplaces that
share a display name.  `tradeport_v1` and `tradeport_v2` both format to
`TradePort`, so the second (last) assignment overwrites the first and the
distribution's percentages sum to 50, not 100. -/
theorem c7_counterexample :
    ((distributeEvenly [some "tradeport_v1", some "tradeport_v2"]).map Prod.snd).sum ≠ 100 := by
  decide

/-- The intended per-index assignment of `distributeEvenly`: `base` to
every position, the remainder `rem` to the position `total - 1`. -/
def evenSpec (base rem : Int) (total : Nat) : Nat → List String → List (String × Int)
  | _, [] => []
  | idx, s :: rest =>
    (formatMarketplaceName s, if idx = total - 1 then rem else base) ::
      evenSpec base rem total (idx + 1) rest

/-- `upsert` on an absent key appends the binding. -/
theorem upsert_of_forall_ne (m : List (String × Int)) (k : String) (v : Int)
    (h : ∀ e ∈ m, e.1 ≠ k) : upsert m k v = m ++ [(k, v)] := by
  rw [upsert, if_neg]
  intro hc
  rw [List.any_eq_true] at hc
  obtain ⟨e, he, hek⟩ := hc
  exact h e he (by simpa using hek)

/-- The `forEach` loop of `distributeEvenly` over non-empty, display-wise
distinct marketplace names extends the accumulator by one fresh binding per
name, matching `evenSpec`. -/
theorem distLoop_spec (base : Int) (total : Nat) :
    ∀ (names : List String) (idx : Nat) (acc : List (String × Int)),
      (∀ s ∈ names, s ≠ "") →
      (names.map formatMarketplaceName).Nodup →
      (∀ s ∈ names, ∀ e ∈ acc, e.1 ≠ formatMarketplaceName s) →
      distLoop base total idx (names.map some) acc =
        acc ++ evenSpec base (100 - base * ((total : Int) - 1)) total idx names := by
  intro names
  induction names with
  | nil => intro idx acc _ _ _; simp [distLoop, evenSpec]
  | cons s rest ih =>
    intro idx acc hall hnodup hdisj
    have hs : s ≠ "" := hall s (by simp)
    have htr : truthyS (some s) = true := by simp [truthyS, hs]
    have hnodup2 : (formatMarketplaceName s :: rest.map formatMarketplaceName).Nodup := by
      simpa using hnodup
    have hn2 := List.nodup_cons.mp hnodup2
    have hdisj2 : ∀ x ∈ rest, ∀ e ∈ acc ++ [(formatMarketplaceName s,
        if idx = total - 1 then 100 - base * ((total : Int) - 1) else base)],
        e.1 ≠ formatMarketplaceName x := by
      intro x hx e he
      rcases List.mem_append.mp he with h1 | h2
      · exact hdisj x (by simp [hx]) e h1
      · have he2 : e = (formatMarketplaceName s,
            if idx = total - 1 then 100 - base * ((total : Int) - 1) else base) := by
          simpa using h2
        subst he2
        simp only
        intro hcontra
        have hmem : formatMarketplaceName x ∈ rest.map formatMarketplaceName :=
          List.mem_map_of_mem _ hx
        rw [← hcontra] at hmem
        exact hn2.1 hmem
    rw [List.map_cons, distLoop]
    simp only [htr, if_pos, Option.getD_some]
    rw [upsert_of_forall_ne acc (formatMarketplaceName s) _ (hdisj s (by simp))]
    rw [ih (idx + 1) _ (fun x hx => hall x (by simp [hx])) hn2.2 hdisj2]
    rw [show evenSpec base (100 - base * ((total : Int) - 1)) total idx (s :: rest) =
        (formatMarketplaceName s,
          if idx = total - 1 then 100 - base * ((total : Int) - 1) else base) ::
          evenSpec base (100 - base * ((total : Int) - 1)) total (idx + 1) rest from rfl]
    rw [List.append_assoc]
    rfl

/-- The percentages produced by `evenSpec` over the final segment of the
index range sum to `base * (count - 1) + rem`. -/
theorem evenSpec_sum (base rem : Int) (total : Nat) :
    ∀ (names : List String) (idx : Nat), names ≠ [] → idx + names.length = total →
      ((evenSpec base rem total idx names).map Prod.snd).sum =
        base * ((names.length : Int) - 1) + rem := by
  intro names
  induction names with
  | nil => intro idx h _; exact absurd rfl h
  | cons s rest ih =>
    intro idx _ hlen
    cases rest with
    | nil =>
      have hidx : idx = total - 1 := by simp at hlen; omega
      simp [evenSpec, hidx]
    | cons r rs =>
      have hne : idx ≠ total - 1 := by simp at hlen; omega
      have h2 := ih (idx + 1) (by simp) (by simp at hlen ⊢; omega)
      rw [show evenSpec base rem total idx (s :: r :: rs) =
          (formatMarketplaceName s, if idx = total - 1 then rem else base) ::
            evenSpec base rem total (idx + 1) (r :: rs) from rfl]
      rw [List.map_cons, List.sum_cons, if_neg hne, h2]
      simp only [List.length_cons]
      push_cast
      ring

/-- C7, amended.  For a non-empty list of marketplaces whose names are all
non-empty and whose display names are pairwise distinct, the even-split
fallback assigns `floor(100/N)` percent to every marketplace except the
last, the last absorbs `100 - floor(100/N)·(N-1)`, and the percentages sum
to exactly 100.  (When two raw names share a display name the later
assignment overwrites the earlier one — see the counterexample — and when
a name is falsy its slot is skipped entirely.) -/
theorem c7_even_distribution (names : List String)
    (hne : names ≠ []) (hall : ∀ s ∈ names, s ≠ "")
    (hnodup : (names.map formatMarketplaceName).Nodup) :
    distributeEvenly (names.map some) =
      evenSpec ((100 : Int) / (names.length : Int))
        (100 - ((100 : Int) / (names.length : Int)) * ((names.length : Int) - 1))
        names.length 0 names ∧
    ((distributeEvenly (names.map some)).map Prod.snd).sum = 100 := by
  have hlen : (names.map some).length = names.length := List.length_map _ _
  have h1 : distributeEvenly (names.map some) =
      [] ++ evenSpec ((100 : Int) / (names.length : Int))
        (100 - ((100 : Int) / (names.length : Int)) * ((names.length : Int) - 1))
        names.length 0 names := by
    rw [distributeEvenly, hlen]
    exact distLoop_spec _ _ names 0 [] hall hnodup (by simp)
  constructor
  · simpa using h1
  · rw [h1]
    simp only [List.nil_append]
    rw [evenSpec_sum _ _ _ names 0 hne (by simp)]
    ring

/-- Witness for the amended C7 on two distinct marketplaces. -/
theorem c7_even_distribution_witness :
    (["wapal", "bluemove"] : List String) ≠ [] ∧
    (∀ s ∈ (["wapal", "bluemove"] : List String), s ≠ "") ∧
    ((["wapal", "bluemove"] : List String).map formatMarketplaceName).Nodup ∧
    ((distributeEvenly ([ "wapal", "bluemove"].map some)).map Prod.snd).sum = 100 :=
  ⟨by decide, by decide, by decide,
   (c7_even_distribution ["wapal", "bluemove"] (by decide) (by decide) (by decide)).2⟩

/-! ## Claim C8: idempotence of `formatMarketplaceName`

Character-level facts about the ASCII case conversions. -/

/-- Valid scalar values round-trip through `Char.ofNat`. -/
theorem char_toNat_ofNat {n : Nat} (h : n.isValidChar) : (Char.ofNat n).toNat = n := by
  rw [Char.ofNat, dif_pos h]
  simp [Char.ofNatAux, Char.toNat, UInt32.toNat]

/-- `Char.toNat` is injective. -/
theorem char_eq_of_toNat_eq {a b : Char} (h : a.toNat = b.toNat) : a = b := by
  have h2 := congrArg Char.ofNat h
  rwa [Char.ofNat_toNat, Char.ofNat_toNat] at h2

/-- Scalar value of `Char.toUpper`. -/
theorem toNat_toUpper (c : Char) :
    c.toUpper.toNat = if 97 ≤ c.toNat ∧ c.toNat ≤ 122 then c.toNat - 32 else c.toNat := by
  rw [Char.toUpper]
  by_cases h : 97 ≤ c.toNat ∧ c.toNat ≤ 122
  · rw [if_pos h, if_pos h]
    exact char_toNat_ofNat (Or.inl (by omega))
  · rw [if_neg h, if_neg h]

/-- Scalar value of `Char.toLower`. -/
theorem toNat_toLower (c : Char) :
    c.toLower.toNat = if 65 ≤ c.toNat ∧ c.toNat ≤ 90 then c.toNat + 32 else c.toNat := by
  rw [Char.toLower]
  by_cases h : 65 ≤ c.toNat ∧ c.toNat ≤ 90
  · rw [if_pos h, if_pos h]
    exact char_toNat_ofNat (Or.inl (by omega))
  · rw [if_neg h, if_neg h]

/-- Upper-casing is idempotent (ASCII). -/
theorem toUpper_toUpper (c : Char) : c.toUpper.toUpper = c.toUpper := by
  apply char_eq_of_toNat_eq
  have h1 := toNat_toUpper c
  rw [toNat_toUpper c.toUpper]
  by_cases h : 97 ≤ c.toNat ∧ c.toNat ≤ 122
  · rw [if_pos h] at h1
    rw [if_neg (by omega)]
  · rw [if_neg h] at h1
    rw [if_neg (by omega)]

/-- Lower-casing is idempotent (ASCII). -/
theorem toLower_toLower (c : Char) : c.toLower.toLower = c.toLower := by
  apply char_eq_of_toNat_eq
  have h1 := toNat_toLower c
  rw [toNat_toLower c.toLower]
  by_cases h : 65 ≤ c.toNat ∧ c.toNat ≤ 90
  · rw [if_pos h] at h1
    rw [if_neg (by omega)]
  · rw [if_neg h] at h1
    rw [if_neg (by omega)]

/-- Lower-casing after upper-casing equals plain lower-casing (ASCII). -/
theorem toLower_toUpper (c : Char) : c.toUpper.toLower = c.toLower := by
  apply char_eq_of_toNat_eq
  have h1 := toNat_toUpper c
  rw [toNat_toLower c.toUpper, toNat_toLower c]
  by_cases h : 97 ≤ c.toNat ∧ c.toNat ≤ 122
  · rw [if_pos h] at h1
    rw [if_pos (by omega), if_neg (by omega)]
    omega
  · rw [if_neg h] at h1
    rw [h1]

/-- `Char.toUpper` never produces a character outside the upper-case range
other than its input. -/
theorem toUpper_ne {c d : Char} (hd : ¬(65 ≤ d.toNat ∧ d.toNat ≤ 90)) (hne : c ≠ d) :
    c.toUpper ≠ d := by
  intro h
  have h1 := toNat_toUpper c
  rw [h] at h1
  by_cases hc : 97 ≤ c.toNat ∧ c.toNat ≤ 122
  · rw [if_pos hc] at h1
    omega
  · rw [if_neg hc] at h1
    exact hne (char_eq_of_toNat_eq h1.symm)

/-- `Char.toLower` never produces a character outside the lower-case range
other than its input. -/
theorem toLower_ne {c d : Char} (hd : ¬(97 ≤ d.toNat ∧ d.toNat ≤ 122)) (hne : c ≠ d) :
    c.toLower ≠ d := by
  intro h
  have h1 := toNat_toLower c
  rw [h] at h1
  by_cases hc : 65 ≤ c.toNat ∧ c.toNat ≤ 90
  · rw [if_pos hc] at h1
    omega
  · rw [if_neg hc] at h1
    exact hne (char_eq_of_toNat_eq h1.symm)

/-! Facts about the split-on-space / join-with-space pair. -/

/-- A split result is never the empty list of pieces. -/
theorem splitSp_ne_nil (l : List Char) : splitSp l ≠ [] := by
  cases l with
  | nil => simp [splitSp]
  | cons c cs =>
    rw [splitSp]
    by_cases h : c = ' '
    · rw [if_pos h]
      simp
    · rw [if_neg h]
      cases hs : splitSp cs with
      | nil => simp [consHead]
      | cons w ws => simp [consHead]

/-- No piece of a split contains the separator. -/
theorem space_not_mem_splitSp : ∀ (l w : List Char), w ∈ splitSp l → ' ' ∉ w := by
  intro l
  induction l with
  | nil =>
    intro w hw
    simp [splitSp] at hw
    subst hw
    simp
  | cons c cs ih =>
    intro w hw
    rw [splitSp] at hw
    by_cases h : c = ' '
    · rw [if_pos h] at hw
      rcases List.mem_cons.mp hw with h1 | h2
      · subst h1; simp
      · exact ih w h2
    · rw [if_neg h] at hw
      cases hs : splitSp cs with
      | nil => exact absurd hs (splitSp_ne_nil cs)
      | cons w1 ws =>
        rw [hs, consHead] at hw
        rcases List.mem_cons.mp hw with h1 | h2
        · subst h1
          intro hsp
          rcases List.mem_cons.mp hsp with h3 | h4
          · exact h h3.symm
          · exact ih w1 (by rw [hs]; simp) h4
        · exact ih w (by rw [hs]; simp [h2])

/-- Every character of a split piece occurs in the original list. -/
theorem mem_of_mem_splitSp : ∀ (l w : List Char), w ∈ splitSp l → ∀ x ∈ w, x ∈ l := by
  intro l
  induction l with
  | nil =>
    intro w hw x hx
    simp [splitSp] at hw
    subst hw
    simp at hx
  | cons c cs ih =>
    intro w hw x hx
    rw [splitSp] at hw
    by_cases h : c = ' '
    · rw [if_pos h] at hw
      rcases List.mem_cons.mp hw with h1 | h2
      · subst h1; simp at hx
      · exact List.mem_cons_of_mem c (ih w h2 x hx)
    · rw [if_neg h] at hw
      cases hs : splitSp cs with
      | nil => exact absurd hs (splitSp_ne_nil cs)
      | cons w1 ws =>
        rw [hs, consHead] at hw
        rcases List.mem_cons.mp hw with h1 | h2
        · subst h1
          rcases List.mem_cons.mp hx with h3 | h4
          · subst h3; simp
          · exact List.mem_cons_of_mem c (ih w1 (by rw [hs]; simp) x h4)
        · exact List.mem_cons_of_mem c (ih w (by rw [hs]; simp [h2]) x hx)

/-- Unfolding equation for `joinSp` on two or more pieces. -/
theorem joinSp_cons_cons (w x : List Char) (xs : List (List Char)) :
    joinSp (w :: x :: xs) = w ++ ' ' :: joinSp (x :: xs) := rfl

/-- Joining a split recovers the original list. -/
theorem joinSp_splitSp : ∀ l : List Char, joinSp (splitSp l) = l := by
  intro l
  induction l with
  | nil => rfl
  | cons c cs ih =>
    rw [splitSp]
    by_cases h : c = ' '
    · rw [if_pos h]
      cases hs : splitSp cs with
      | nil => exact absurd hs (splitSp_ne_nil cs)
      | cons w ws =>
        rw [hs] at ih
        rw [joinSp_cons_cons, ← ih, h]
        rfl
    · rw [if_neg h]
      cases hs : splitSp cs with
      | nil => exact absurd hs (splitSp_ne_nil cs)
      | cons w ws =>
        rw [hs] at ih
        rw [consHead]
        cases ws with
        | nil => exact congrArg (List.cons c) ih
        | cons y ys =>
          rw [joinSp_cons_cons] at ih
          rw [joinSp_cons_cons, List.cons_append, ih]

/-- Splitting a separator-free list yields a single piece. -/
theorem splitSp_no_space : ∀ w : List Char, ' ' ∉ w → splitSp w = [w] := by
  intro w
  induction w with
  | nil => intro _; rfl
  | cons c cs ih =>
    intro h
    rw [splitSp, if_neg (fun hc => h (by rw [hc]; simp))]
    rw [ih (fun hc => h (List.mem_cons_of_mem c hc))]
    rfl

/-- Splitting at an explicit separator after a separator-free block peels
off that block. -/
theorem splitSp_append_space : ∀ w : List Char, ' ' ∉ w →
    ∀ l, splitSp (w ++ ' ' :: l) = w :: splitSp l := by
  intro w
  induction w with
  | nil =>
    intro _ l
    rw [List.nil_append, splitSp, if_pos rfl]
  | cons c cs ih =>
    intro h l
    rw [List.cons_append, splitSp, if_neg (fun hc => h (by rw [hc]; simp))]
    rw [ih (fun hc => h (List.mem_cons_of_mem c hc)) l]
    rfl

/-- Splitting a join of separator-free pieces recovers the pieces. -/
theorem splitSp_joinSp : ∀ ws : List (List Char), (∀ w ∈ ws, ' ' ∉ w) → ws ≠ [] →
    splitSp (joinSp ws) = ws := by
  intro ws
  induction ws with
  | nil => intro _ h; exact absurd rfl h
  | cons w ws2 ih =>
    intro hall _
    cases ws2 with
    | nil => exact splitSp_no_space w (hall w (by simp))
    | cons x xs =>
      rw [joinSp_cons_cons, splitSp_append_space w (hall w (by simp))]
      rw [ih (fun y hy => hall y (by simp [hy])) (by simp)]

/-- Every character of a join is the separator or comes from a piece. -/
theorem mem_joinSp : ∀ (ws : List (List Char)) (x : Char), x ∈ joinSp ws →
    x = ' ' ∨ ∃ w ∈ ws, x ∈ w := by
  intro ws
  induction ws with
  | nil => intro x hx; simp [joinSp] at hx
  | cons w ws2 ih =>
    intro x hx
    cases ws2 with
    | nil => exact Or.inr ⟨w, by simp, hx⟩
    | cons y ys =>
      rw [joinSp_cons_cons] at hx
      rcases List.mem_append.mp hx with h1 | h2
      · exact Or.inr ⟨w, by simp, h1⟩
      · rcases List.mem_cons.mp h2 with h3 | h4
        · exact Or.inl h3
        · rcases ih x h4 with h5 | ⟨w2, hw2, hxw2⟩
          · exact Or.inl h5
          · exact Or.inr ⟨w2, by simp [hw2], hxw2⟩

/-- A separator-preserving character map distributes over joins. -/
theorem map_joinSp (f : Char → Char) (hf : f ' ' = ' ') :
    ∀ ws : List (List Char), (joinSp ws).map f = joinSp (ws.map (List.map f)) := by
  intro ws
  induction ws with
  | nil => rfl
  | cons w ws2 ih =>
    cases ws2 with
    | nil => rfl
    | cons y ys =>
      rw [joinSp_cons_cons, List.map_append, List.map_cons, hf, ih]
      rfl

/-! Facts about `capWord`, the suffix strippers and the separator map. -/

/-- Capitalization is idempotent. -/
theorem capWord_capWord (w : List Char) : capWord (capWord w) = capWord w := by
  cases w with
  | nil => rfl
  | cons c cs =>
    rw [capWord, capWord, toUpper_toUpper, List.map_map]
    congr 1
    apply List.map_congr_left
    intro a _
    exact toLower_toLower a

/-- Lower-casing erases the effect of capitalization. -/
theorem map_toLower_capWord (w : List Char) :
    (capWord w).map Char.toLower = w.map Char.toLower := by
  cases w with
  | nil => rfl
  | cons c cs =>
    rw [capWord, List.map_cons, List.map_cons, toLower_toUpper, List.map_map]
    congr 1
    apply List.map_congr_left
    intro a _
    exact toLower_toLower a

/-- Capitalization introduces no character outside both case ranges. -/
theorem not_mem_capWord {x : Char} (hU : ¬(65 ≤ x.toNat ∧ x.toNat ≤ 90))
    (hL : ¬(97 ≤ x.toNat ∧ x.toNat ≤ 122)) :
    ∀ w : List Char, x ∉ w → x ∉ capWord w := by
  intro w hw hx
  cases w with
  | nil => simp [capWord] at hx
  | cons c cs =>
    rw [capWord] at hx
    rcases List.mem_cons.mp hx with h1 | h2
    · exact toUpper_ne hU (fun hc => hw (by rw [hc]; simp)) h1.symm
    · rw [List.mem_map] at h2
      obtain ⟨a, ha, hax⟩ := h2
      exact toLower_ne hL
        (fun hc => hw (by rw [← hc]; exact List.mem_cons_of_mem c ha)) hax

/-- Both suffix patterns require a leading underscore. -/
theorem isVSuffixAt_head {c : Char} {cs : List Char} (h : ¬c = '_') :
    isVSuffixAt (c :: cs) = false := by
  cases cs with
  | nil => rfl
  | cons d ds => simp [isVSuffixAt, h]

/-- The numeric suffix pattern also requires a leading underscore. -/
theorem isNumSuffixAt_head {c : Char} {cs : List Char} (h : ¬c = '_') :
    isNumSuffixAt (c :: cs) = false := by
  simp [isNumSuffixAt, h]

/-- Stripping a pattern that needs an underscore is the identity on
underscore-free lists. -/
theorem stripEndMatch_of_no_underscore (p : List Char → Bool)
    (hp : ∀ (c : Char) (cs : List Char), ¬c = '_' → p (c :: cs) = false) :
    ∀ l : List Char, '_' ∉ l → stripEndMatch p l = l := by
  intro l
  induction l with
  | nil => intro _; rfl
  | cons c cs ih =>
    intro hl
    have hc : ¬c = '_' := fun h => hl (by rw [h]; simp)
    rw [stripEndMatch, if_neg (by simp [hp c cs hc])]
    rw [ih (fun h => hl (List.mem_cons_of_mem c h))]

/-- The stripped list is a prefix of the original. -/
theorem stripEndMatch_isPrefix (p : List Char → Bool) :
    ∀ l : List Char, stripEndMatch p l <+: l := by
  intro l
  induction l with
  | nil => simp [stripEndMatch]
  | cons c cs ih =>
    rw [stripEndMatch]
    by_cases h : p (c :: cs) = true
    · rw [if_pos h]
      exact List.nil_prefix
    · rw [if_neg h]
      obtain ⟨t, ht⟩ := ih
      exact ⟨t, by rw [List.cons_append, ht]⟩

/-- The separator map never produces an underscore. -/
theorem sepToSpace_ne_underscore (c : Char) : sepToSpace c ≠ '_' := by
  rw [sepToSpace]
  by_cases h : (c == '-' || c == '_') = true
  · rw [if_pos h]
    decide
  · rw [if_neg h]
    intro hc
    rw [hc] at h
    exact h (by decide)

/-- The separator map never produces a hyphen. -/
theorem sepToSpace_ne_dash (c : Char) : sepToSpace c ≠ '-' := by
  rw [sepToSpace]
  by_cases h : (c == '-' || c == '_') = true
  · rw [if_pos h]
    decide
  · rw [if_neg h]
    intro hc
    rw [hc] at h
    exact h (by decide)

/-- The separator map fixes non-separator characters. -/
theorem sepToSpace_eq_self {c : Char} (h1 : c ≠ '-') (h2 : c ≠ '_') : sepToSpace c = c := by
  rw [sepToSpace, if_neg]
  simp [h1, h2]

/-- The separator map commutes with lower-casing. -/
theorem toLower_sepToSpace (c : Char) : (sepToSpace c).toLower = sepToSpace c.toLower := by
  by_cases h : (c == '-' || c == '_') = true
  · have h3 : c = '-' ∨ c = '_' := by simpa using h
    rcases h3 with h1 | h2
    · rw [h1]
      decide
    · rw [h2]
      decide
  · have h1 : c ≠ '-' := by intro hc; rw [hc] at h; exact h (by decide)
    have h2 : c ≠ '_' := by intro hc; rw [hc] at h; exact h (by decide)
    rw [sepToSpace_eq_self h1 h2,
      sepToSpace_eq_self (toLower_ne (by decide) h1) (toLower_ne (by decide) h2)]

/-! Facts about the general formatting branch. -/

/-- No character rejected by both case ranges, distinct from the space, and
outside the range of `sepToSpace` occurs in a generally formatted name. -/
theorem not_mem_generalFormat {x : Char} (hx : x ≠ ' ')
    (hU : ¬(65 ≤ x.toNat ∧ x.toNat ≤ 90)) (hL : ¬(97 ≤ x.toNat ∧ x.toNat ≤ 122))
    (hsep : ∀ y : Char, sepToSpace y ≠ x) (l : List Char) : x ∉ generalFormat l := by
  intro hmem
  rw [generalFormat, titleCase] at hmem
  rcases mem_joinSp _ _ hmem with h1 | ⟨p, hp, hxp⟩
  · exact hx h1
  · rw [List.mem_map] at hp
    obtain ⟨w, hw, hcap⟩ := hp
    rw [← hcap] at hxp
    refine not_mem_capWord hU hL w ?_ hxp
    intro hxw
    have hxu := mem_of_mem_splitSp _ _ hw x hxw
    rw [List.mem_map] at hxu
    obtain ⟨y, _, hyx⟩ := hxu
    exact hsep y hyx

/-- A generally formatted name contains no underscore. -/
theorem underscore_not_mem_generalFormat (l : List Char) : '_' ∉ generalFormat l :=
  not_mem_generalFormat (by decide) (by decide) (by decide) sepToSpace_ne_underscore l

/-- A generally formatted name contains no hyphen. -/
theorem dash_not_mem_generalFormat (l : List Char) : '-' ∉ generalFormat l :=
  not_mem_generalFormat (by decide) (by decide) (by decide) sepToSpace_ne_dash l

/-- Lower-casing a generally formatted name gives the lower-cased,
suffix-stripped input with separators mapped to spaces. -/
theorem map_toLower_generalFormat (l : List Char) :
    (generalFormat l).map Char.toLower =
      ((stripEndMatch isNumSuffixAt (stripEndMatch isVSuffixAt l)).map
        Char.toLower).map sepToSpace := by
  rw [generalFormat, titleCase]
  rw [map_joinSp Char.toLower (by decide)]
  rw [List.map_map]
  rw [show ((splitSp ((stripEndMatch isNumSuffixAt (stripEndMatch isVSuffixAt l)).map
        sepToSpace)).map (List.map Char.toLower ∘ capWord)) =
      ((splitSp ((stripEndMatch isNumSuffixAt (stripEndMatch isVSuffixAt l)).map
        sepToSpace)).map (List.map Char.toLower)) from
    List.map_congr_left (fun w _ => map_toLower_capWord w)]
  rw [← map_joinSp Char.toLower (by decide), joinSp_splitSp]
  rw [List.map_map, List.map_map]
  exact List.map_congr_left (fun a _ => toLower_sepToSpace a)

/-- A space-free pattern that is an infix of a separator-to-space image is
an infix of the original. -/
theorem infix_of_infix_map_sepToSpace {pat m : List Char} (hsp : ' ' ∉ pat)
    (h : pat <:+: m.map sepToSpace) : pat <:+: m := by
  obtain ⟨a, b, hab⟩ := h
  have h1 : m.map sepToSpace = a ++ (pat ++ b) := by rw [← hab, List.append_assoc]
  rcases List.map_eq_append_iff.mp h1 with ⟨m1, m2, hm, _, hrest⟩
  rcases List.map_eq_append_iff.mp hrest with ⟨m3, m4, hm2, hpat, _⟩
  have hm3 : m3 = pat := by
    have hfix : ∀ x ∈ m3, sepToSpace x = x := by
      intro x hx
      have hme : sepToSpace x ∈ pat := by
        rw [← hpat]
        exact List.mem_map_of_mem _ hx
      have hxs : sepToSpace x ≠ ' ' := fun hc => hsp (hc ▸ hme)
      have hx1 : x ≠ '-' := by
        intro hc
        rw [hc] at hxs
        exact hxs (by decide)
      have hx2 : x ≠ '_' := by
        intro hc
        rw [hc] at hxs
        exact hxs (by decide)
      exact sepToSpace_eq_self hx1 hx2
    rw [← hpat]
    exact ((List.map_congr_left hfix).trans (List.map_id m3)).symm
  exact ⟨m1, m4, by rw [← hm3, List.append_assoc, ← hm2, ← hm]⟩

/-- A space-free pattern occurring (case-insensitively) in a generally
formatted name already occurred in the unformatted input. -/
theorem infix_lower_transfer (l : List Char) {pat : List Char} (hsp : ' ' ∉ pat)
    (h : pat <:+: (generalFormat l).map Char.toLower) :
    pat <:+: l.map Char.toLower := by
  rw [map_toLower_generalFormat] at h
  have h2 := infix_of_infix_map_sepToSpace hsp h
  have hpre : stripEndMatch isNumSuffixAt (stripEndMatch isVSuffixAt l) <+: l :=
    List.IsPrefix.trans (stripEndMatch_isPrefix _ _) (stripEndMatch_isPrefix _ _)
  exact h2.trans ((hpre.map Char.toLower).isInfix)

/-- The general formatting branch is idempotent. -/
theorem generalFormat_idem (l : List Char) :
    generalFormat (generalFormat l) = generalFormat l := by
  have hA := underscore_not_mem_generalFormat l
  have hB := dash_not_mem_generalFormat l
  conv_lhs => rw [generalFormat]
  rw [stripEndMatch_of_no_underscore isVSuffixAt
    (fun c cs h => isVSuffixAt_head h) _ hA]
  rw [stripEndMatch_of_no_underscore isNumSuffixAt
    (fun c cs h => isNumSuffixAt_head h) _ hA]
  rw [show (generalFormat l).map sepToSpace = generalFormat l from
    (List.map_congr_left (fun x hx => sepToSpace_eq_self
      (fun hc => hB (hc ▸ hx)) (fun hc => hA (hc ▸ hx)))).trans (List.map_id _)]
  have hpieces : ∀ p ∈ (splitSp ((stripEndMatch isNumSuffixAt
      (stripEndMatch isVSuffixAt l)).map sepToSpace)).map capWord, ' ' ∉ p := by
    intro p hp
    rw [List.mem_map] at hp
    obtain ⟨w, hw, hcap⟩ := hp
    rw [← hcap]
    exact not_mem_capWord (by decide) (by decide) w (space_not_mem_splitSp _ w hw)
  have hps : splitSp (generalFormat l) =
      (splitSp ((stripEndMatch isNumSuffixAt
        (stripEndMatch isVSuffixAt l)).map sepToSpace)).map capWord := by
    conv_lhs => rw [generalFormat, titleCase]
    exact splitSp_joinSp _ hpieces (by
      intro hc
      exact splitSp_ne_nil _ (List.map_eq_nil_iff.mp hc))
  rw [titleCase, hps, List.map_map]
  rw [show ((splitSp ((stripEndMatch isNumSuffixAt
        (stripEndMatch isVSuffixAt l)).map sepToSpace)).map (capWord ∘ capWord)) =
      ((splitSp ((stripEndMatch isNumSuffixAt
        (stripEndMatch isVSuffixAt l)).map sepToSpace)).map capWord) from
    List.map_congr_left (fun w _ => capWord_capWord w)]
  conv_rhs => rw [generalFormat, titleCase]

/-- Counterexample to C8 as stated: the input `_v1` is swallowed whole by
the version-suffix stripper, so it formats to the empty string, and
formatting that empty string yields `Unknown` — a different string. -/
theorem c8_counterexample :
    formatMarketplaceName (formatMarketplaceName "_v1") ≠ formatMarketplaceName "_v1" := by
  decide

/-- C8, amended.  `formatMarketplaceName` is idempotent on every input
whose formatted name is non-empty; the only exceptions are inputs that
consist entirely of a version suffix (such as `_v1` or `_7`), which format
to `""` and reformat to `Unknown`. -/
theorem c8_format_idempotent (s : String) (h : formatMarketplaceName s ≠ "") :
    formatMarketplaceName (formatMarketplaceName s) = formatMarketplaceName s := by
  by_cases h0 : s = ""
  · subst h0
    decide
  by_cases h1 : jsIncludes (jsLower s) "topaz" = true
  · rw [show formatMarketplaceName s = "Topaz (Deprecated)" from by
      rw [formatMarketplaceName, if_neg h0, if_pos h1]]
    decide
  by_cases h2 : jsIncludes (jsLower s) "tradeport" = true
  · rw [show formatMarketplaceName s = "TradePort" from by
      rw [formatMarketplaceName, if_neg h0, if_neg h1, if_pos h2]]
    decide
  by_cases h3 : jsIncludes (jsLower s) "bluemove" = true
  · rw [show formatMarketplaceName s = "Bluemove" from by
      rw [formatMarketplaceName, if_neg h0, if_neg h1, if_neg h2, if_pos h3]]
    decide
  have hf : formatMarketplaceName s = ⟨generalFormat s.data⟩ := by
    rw [formatMarketplaceName, if_neg h0, if_neg h1, if_neg h2, if_neg h3]
  rw [hf] at h ⊢
  have htr : ∀ pat : String, ' ' ∉ pat.data →
      ¬(jsIncludes (jsLower s) pat = true) →
      ¬(jsIncludes (jsLower (⟨generalFormat s.data⟩ : String)) pat = true) := by
    intro pat hsp hfalse hcont
    rw [jsIncludes, decide_eq_true_eq] at hcont
    apply hfalse
    rw [jsIncludes, decide_eq_true_eq]
    have h5 : pat.data <:+: (generalFormat s.data).map Char.toLower := by
      simpa [jsLower] using hcont
    have h6 := infix_lower_transfer s.data hsp h5
    simpa [jsLower] using h6
  rw [formatMarketplaceName, if_neg h, if_neg (htr "topaz" (by decide) h1),
    if_neg (htr "tradeport" (by decide) h2), if_neg (htr "bluemove" (by decide) h3)]
  exact congrArg String.mk (generalFormat_idem s.data)

/-- Witness for the amended C8 on a concrete marketplace name. -/
theorem c8_format_idempotent_witness :
    formatMarketplaceName "wapal_v2" ≠ "" ∧
    formatMarketplaceName (formatMarketplaceName "wapal_v2") =
      formatMarketplaceName "wapal_v2" :=
  ⟨by decide, c8_format_idempotent "wapal_v2" (by decide)⟩
